import Mathlib

/-!
Verification of the route-optimization program (`route-optimizer.py`).

The development shallowly embeds the cost-acquisition layer (the geocoder,
the persistent geometry cache, the OSRM primary / MapQuest fallback routing
calls) and the tour optimizer (brute-force permutation search for `n ≤ 8`,
nearest-neighbour heuristic for `n > 8`).

Modelling conventions:
* Python floats become rationals; the `float("inf")` sentinel becomes `⊤` in
  `WithTop ℚ`, whose `+` and `<` agree with IEEE behaviour on the values the
  program manipulates (no subtraction, no NaN is ever produced).
* The cache key `(f"{lat:.6f},{lon:.6f}", ...)` -- a pair of coordinate
  strings rounded to six decimal places -- is modelled as the pair of integer
  pairs obtained by rounding `coordinate * 10^6`.
* Network traffic is an oracle: a function from the attempt number to the
  response that attempt receives.  Each attempt bumps a request counter in
  the run state so that "makes no network request" is expressible.
* The Python `dict` becomes an association list with overwrite-or-append
  insertion, so that `len(geometry_cache)` is the list length.
-/

/-- Matrix costs and route costs: a rational, or the `float("inf")` sentinel. -/
abbrev Cost := WithTop ℚ

/-- A geographic coordinate `(lat, lng)`. -/
abbrev Coord := ℚ × ℚ

/-- A decoded route geometry: a list of coordinates. -/
abbrev Geo := List Coord

/-- Result triple of `get_route_with_geometry` / `get_mapquest_route`:
`(duration_seconds, distance_meters, geometry-or-None)`. -/
abbrev RouteRes := Cost × Cost × Option Geo

/-- The failure sentinel `float("inf"), float("inf"), None` (lines 85, 204). -/
def failRes : RouteRes := (⊤, ⊤, none)

/-! ## Geocoding (`geocode_address`, lines 49-80) -/

/-- Latitude of MapQuest's default center-of-US sentinel (line 70). -/
def sentLat : ℚ := 3978373 / 100000

/-- Longitude of MapQuest's default center-of-US sentinel (line 70). -/
def sentLng : ℚ := -100445882 / 1000000

/-- One geocoding attempt's outcome: transport error / non-200 status,
an empty result list, or a `latLng` payload. -/
inductive GeoResp where
  | err : GeoResp
  | noResult : GeoResp
  | ok (lat lng : ℚ) : GeoResp
deriving DecidableEq

/-- Lines 66-71: a single attempt yields a coordinate only when the response
carries a location whose latitude differs from `39.78373` AND whose longitude
differs from `-100.445882`; otherwise the attempt produces nothing and the
loop continues. -/
def geocodeTry (r : GeoResp) : Option Coord :=
  match r with
  | .ok lat lng => if lat ≠ sentLat ∧ lng ≠ sentLng then some (lat, lng) else none
  | _ => none

/-- The `for attempt in range(3)` loop of `geocode_address`: the first
accepted attempt returns; exhaustion returns `None` (line 80). -/
def geocodeAttempts (resp : ℕ → GeoResp) : List ℕ → Option Coord
  | [] => none
  | i :: rest =>
    match geocodeTry (resp i) with
    | some c => some c
    | none => geocodeAttempts resp rest

/-- The function `geocode_address` (lines 49-80), with the network as an oracle mapping the
attempt number to its response. -/
def geocode_address (resp : ℕ → GeoResp) : Option Coord :=
  geocodeAttempts resp [0, 1, 2]

/-! ## The persistent geometry cache (lines 26-47, 88-91, 122-130, 150-153, 184-193) -/

/-- One coordinate component of a cache key: the coordinate rounded to six
decimal places (`f"{x:.6f}"`), kept as an integer count of 10⁻⁶ degrees. -/
def fmt6 (x : ℚ) : ℤ := round (x * 1000000)

/-- A cache key: the rounded source coordinate and the rounded destination
coordinate, in that order (directional). -/
abbrev CKey := (ℤ × ℤ) × (ℤ × ℤ)

/-- Line 88 / line 150: both providers form the key from the same
`(source formatted, destination formatted)` pair. -/
def mkKey (source destination : Coord) : CKey :=
  ((fmt6 source.1, fmt6 source.2), (fmt6 destination.1, fmt6 destination.2))

/-- The provider tag stored inside a cache entry: OSRM writes no `service`
field (line 122), MapQuest writes `service = "mapquest"` (line 188). -/
inductive Service where
  | mapquest : Service
deriving DecidableEq

/-- A cached route record: the dict written at lines 122-126 / 184-189.
`service = none` models the absent `service` key of an OSRM entry
(`dict.get("service")` returning `None`). -/
structure CacheEntry where
  duration : Cost
  distance : Cost
  geometry : Option Geo
  service : Option Service
deriving DecidableEq

/-- The in-memory `geometry_cache` dict, as an association list. -/
abbrev DCache := List (CKey × CacheEntry)

/-- Python `dict` lookup. -/
def dictLookup (c : DCache) (k : CKey) : Option CacheEntry :=
  match c with
  | [] => none
  | (k', e) :: rest => if k' = k then some e else dictLookup rest k

/-- Python `dict` assignment: overwrite the existing entry for the key, or
append a fresh one (so the list length tracks `len(geometry_cache)`). -/
def dictInsert (c : DCache) (k : CKey) (e : CacheEntry) : DCache :=
  match c with
  | [] => [(k, e)]
  | (k', e') :: rest =>
    if k' = k then (k, e) :: rest else (k', e') :: dictInsert rest k e

/-- Observable run state: the in-memory cache, the contents of the persisted
cache file, and how many provider HTTP requests have been issued. -/
structure RunState where
  cache : DCache
  file : DCache
  requests : ℕ
deriving DecidableEq

/-- Count one provider request. -/
def bump (st : RunState) : RunState :=
  ⟨st.cache, st.file, st.requests + 1⟩

/-- Lines 122-130 and 184-193: store a successful result in the cache, then
`save_geometry_cache` when `len(geometry_cache) % 10 == 0` (the length after
the insertion, counting startup-loaded entries too). -/
def cacheWrite (st : RunState) (k : CKey) (e : CacheEntry) : RunState :=
  let c := dictInsert st.cache k e
  if c.length % 10 = 0 then ⟨c, c, st.requests⟩ else ⟨c, st.file, st.requests⟩

/-! ## The OSRM primary provider (`get_route_with_geometry`, lines 82-142) -/

/-- One OSRM attempt's outcome: transport error, non-200 / `code != "Ok"`
response, or a route carrying duration, distance and a decoded polyline. -/
inductive OsrmResp where
  | err : OsrmResp
  | bad : OsrmResp
  | ok (duration distance : ℚ) (geometry : Geo) : OsrmResp
deriving DecidableEq

/-- The `for attempt in range(3)` loop of lines 98-138: each attempt issues a
request; a success caches `{duration, distance, geometry}` (no `service`
field) and returns; exhaustion yields `none` and OSRM-untouched cache/file. -/
def osrmAttempts (osrm : ℕ → OsrmResp) (k : CKey) :
    List ℕ → RunState → Option RouteRes × RunState
  | [], st => (none, st)
  | i :: rest, st =>
    match osrm i with
    | .ok du di coords =>
      let entry : CacheEntry := ⟨(du : Cost), (di : Cost), some coords, none⟩
      (some ((du : Cost), (di : Cost), some coords), cacheWrite (bump st) k entry)
    | _ => osrmAttempts osrm k rest (bump st)

/-! ## The MapQuest fallback (`get_mapquest_route`, lines 144-204) -/

/-- One MapQuest attempt's outcome: transport error, unusable response
(non-200, missing route, or `distance is None`), or a route carrying `time`,
`distance` (kilometres) and the flat `shapePoints` array. -/
inductive MqResp where
  | err : MqResp
  | bad : MqResp
  | okShape (time distanceKm : ℚ) (shapePoints : List ℚ) : MqResp
deriving DecidableEq

/-- Line 181: `[(shape_points[i], shape_points[i+1]) for i in range(0, len, 2)]`.
An odd-length array makes the comprehension raise `IndexError` (caught by the
enclosing `except`), modelled as `none`. -/
def pairUp : List ℚ → Option Geo
  | [] => some []
  | [_] => none
  | a :: b :: rest => (pairUp rest).map (fun g => (a, b) :: g)

/-- The `for attempt in range(3)` loop of lines 156-201: an attempt succeeds
only when the response has a distance AND at least two shape points
(line 178); a success caches `{duration, distance_km*1000, geometry,
service: "mapquest"}` under the same key and returns; exhaustion returns the
failure sentinel (line 204). -/
def mqAttempts (mq : ℕ → MqResp) (k : CKey) :
    List ℕ → RunState → RouteRes × RunState
  | [], st => (failRes, st)
  | i :: rest, st =>
    match mq i with
    | .okShape t dk sp =>
      if 2 ≤ sp.length then
        match pairUp sp with
        | some coords =>
          let entry : CacheEntry :=
            ⟨(t : Cost), ((dk * 1000 : ℚ) : Cost), some coords, some Service.mapquest⟩
          (((t : Cost), ((dk * 1000 : ℚ) : Cost), some coords), cacheWrite (bump st) k entry)
        | none => mqAttempts mq k rest (bump st)
      else mqAttempts mq k rest (bump st)
    | _ => mqAttempts mq k rest (bump st)

/-- The function `get_mapquest_route` (lines 144-204).  Lines 150-153: the lookup uses the
same key as the primary but only accepts an entry whose `service` tag is
`"mapquest"`. -/
def get_mapquest_route (mq : ℕ → MqResp) (source destination : Coord)
    (st : RunState) : RouteRes × RunState :=
  let k := mkKey source destination
  match dictLookup st.cache k with
  | some e =>
    if e.service = some Service.mapquest then ((e.duration, e.distance, e.geometry), st)
    else mqAttempts mq k [0, 1, 2] st
  | none => mqAttempts mq k [0, 1, 2] st

/-- The function `get_route_with_geometry` (lines 82-142).  Line 84: a `None` coordinate
returns the sentinel before any cache lookup.  Lines 88-91: the cache lookup
does not inspect the `service` tag and returns the stored triple verbatim.
Lines 140-142: OSRM exhaustion falls back to MapQuest. -/
def get_route_with_geometry (osrm : ℕ → OsrmResp) (mq : ℕ → MqResp)
    (source destination : Option Coord) (st : RunState) : RouteRes × RunState :=
  match source, destination with
  | some s, some d =>
    let k := mkKey s d
    match dictLookup st.cache k with
    | some e => ((e.duration, e.distance, e.geometry), st)
    | none =>
      match osrmAttempts osrm k [0, 1, 2] st with
      | (some r, st2) => (r, st2)
      | (none, st2) => get_mapquest_route mq s d st2
  | _, _ => (failRes, st)

/-- The matrix-build loop's effect on the run state (lines 1037-1048): one
`get_route_with_geometry` call per ordered pair, in order.  `__main__` never
calls `save_geometry_cache` after this loop, so the state after the last call
is the state at normal termination. -/
def runCalls (osrm : ℕ → OsrmResp) (mq : ℕ → MqResp) :
    List (Coord × Coord) → RunState → RunState
  | [], st => st
  | (s, d) :: rest, st =>
    runCalls osrm mq rest (get_route_with_geometry osrm mq (some s) (some d) st).2

/-! ## The tour optimizer (`__main__`, lines 1050-1080) -/

/-- Line 1060: `sum(distance_matrix[route[i], route[i+1]] for i in range(len(route)-1))`. -/
def pathDist (M : ℕ → ℕ → Cost) : List ℕ → Cost
  | a :: b :: rest => M a b + pathDist M (b :: rest)
  | _ => 0

/-- The element selections of `itertools.permutations`: every way to pick one
element of the list together with the remainder in original relative order,
in index order. -/
def pickEach : List ℕ → List (ℕ × List ℕ)
  | [] => []
  | x :: xs => (x, xs) :: (pickEach xs).map (fun p => (p.1, x :: p.2))

/-- The enumeration of `itertools.permutations`, fuelled by the list length: permutations listed
in the enumeration's natural (lexicographic-by-position) order. -/
def permsAux : ℕ → List ℕ → List (List ℕ)
  | 0, _ => [[]]
  | fuel + 1, l =>
    if l.isEmpty then [[]]
    else (pickEach l).flatMap (fun p => (permsAux fuel p.2).map (fun q => p.1 :: q))

/-- The list `list(permutations(locations))` of line 1058. -/
def perms (l : List ℕ) : List (List ℕ) :=
  permsAux l.length l

/-- Lines 1055-1063: the brute-force loop.  `best_order` starts as `None` and
`best_distance` as `float("inf")`; a permutation's closed tour replaces the
best only on strictly smaller total distance. -/
def bestLoop (M : ℕ → ℕ → Cost) :
    List (List ℕ) → Option (List ℕ) → Cost → Option (List ℕ) × Cost
  | [], best, bestDist => (best, bestDist)
  | p :: rest, best, bestDist =>
    let route := 0 :: p ++ [0]
    let d := pathDist M route
    if d < bestDist then bestLoop M rest (some route) d
    else bestLoop M rest best bestDist

/-- Line 1073: `min(unvisited, key=lambda x: distance_matrix[current, x])`,
which keeps the first minimal element in iteration order (the set of small
ints iterates in ascending order, so ties go to the lowest index). -/
def selectMin (f : ℕ → Cost) : ℕ → List ℕ → ℕ
  | best, [] => best
  | best, x :: rest =>
    if f x < f best then selectMin f x rest else selectMin f best rest

/-- Lines 1072-1078: the nearest-neighbour loop, fuelled by the number of
unvisited stops; emits the visited stops then the final return to the
warehouse. -/
def nnLoop (M : ℕ → ℕ → Cost) : ℕ → ℕ → List ℕ → List ℕ
  | 0, _, _ => [0]
  | _ + 1, _, [] => [0]
  | fuel + 1, current, x :: rest =>
    let nxt := selectMin (M current) x rest
    nxt :: nnLoop M fuel nxt ((x :: rest).erase nxt)

/-- Lines 1067-1080: `route = [0]`, greedy loop, `route.append(0)`. -/
def nnRoute (M : ℕ → ℕ → Cost) (n : ℕ) : List ℕ :=
  0 :: nnLoop M (n - 1) 0 (List.range' 1 (n - 1))

/-- Lines 1050-1080: the optimizer.  `n ≤ 8` uses the brute-force permutation
search over `locations = list(range(1, n))`; otherwise nearest neighbour, with
`best_distance` recomputed from the chosen route (line 1080). -/
def findOptimalRoute (M : ℕ → ℕ → Cost) (n : ℕ) : Option (List ℕ) × Cost :=
  if n ≤ 8 then
    bestLoop M (perms (List.range' 1 (n - 1))) none ⊤
  else
    let route := nnRoute M n
    (some route, pathDist M route)

/-! ## Specification-side predicates -/

/-- A healthy cache record: finite duration, finite distance, geometry
present.  The Python code only ever writes such records. -/
def EntryOK (e : CacheEntry) : Prop :=
  e.duration ≠ ⊤ ∧ e.distance ≠ ⊤ ∧ e.geometry ≠ none

/-- Every record of the cache is healthy. -/
def CacheOK (c : DCache) : Prop :=
  ∀ ke ∈ c, EntryOK ke.2

/-- The stop `nxt` is a greedy choice from `unvisited` seen from `current`: it is
unvisited, at minimum matrix distance, and the lowest-indexed stop among the
tying minima. -/
def IsGreedyStep (M : ℕ → ℕ → Cost) (current : ℕ) (unvisited : List ℕ) (nxt : ℕ) : Prop :=
  nxt ∈ unvisited ∧ (∀ y ∈ unvisited, M current nxt ≤ M current y) ∧
    ∀ y ∈ unvisited, M current y = M current nxt → nxt ≤ y

/-- The route tail `r` is a greedy nearest-neighbour traversal of `unvisited`
from `current`, ending with the single return to the depot. -/
inductive Greedy (M : ℕ → ℕ → Cost) : ℕ → List ℕ → List ℕ → Prop where
  | nil (current : ℕ) : Greedy M current [] [0]
  | step {current : ℕ} {unvisited : List ℕ} {nxt : ℕ} {tail : List ℕ}
      (hstep : IsGreedyStep M current unvisited nxt)
      (htail : Greedy M nxt (unvisited.erase nxt) tail) :
      Greedy M current unvisited (nxt :: tail)

/-! ## Association-list (Python dict) lemmas -/

theorem dictLookup_insert_self (c : DCache) (k : CKey) (e : CacheEntry) :
    dictLookup (dictInsert c k e) k = some e := by
  induction c with
  | nil => simp [dictInsert, dictLookup]
  | cons he rest ih =>
    obtain ⟨k', e'⟩ := he
    by_cases h : k' = k
    · simp [dictInsert, dictLookup, h]
    · simp [dictInsert, dictLookup, h, ih]

theorem dictLookup_insert_ne (c : DCache) (k k' : CKey) (e : CacheEntry)
    (h : k' ≠ k) : dictLookup (dictInsert c k e) k' = dictLookup c k' := by
  induction c with
  | nil => simp [dictInsert, dictLookup, Ne.symm h]
  | cons he rest ih =>
    obtain ⟨k0, e0⟩ := he
    by_cases h0 : k0 = k
    · subst h0
      simp [dictInsert, dictLookup, Ne.symm h]
    · simp only [dictInsert, if_neg h0, dictLookup]
      by_cases h1 : k0 = k'
      · simp [h1]
      · simp [h1, ih]

theorem mem_dictInsert (c : DCache) (k : CKey) (e : CacheEntry) (x : CKey × CacheEntry)
    (hx : x ∈ dictInsert c k e) : x = (k, e) ∨ x ∈ c := by
  induction c with
  | nil => simpa [dictInsert] using hx
  | cons he rest ih =>
    obtain ⟨k0, e0⟩ := he
    by_cases h0 : k0 = k
    · simp only [dictInsert, if_pos h0, List.mem_cons] at hx
      rcases hx with h | h
      · exact Or.inl h
      · exact Or.inr (List.mem_cons_of_mem _ h)
    · simp only [dictInsert, if_neg h0, List.mem_cons] at hx
      rcases hx with h | h
      · exact Or.inr (by simp [h])
      · rcases ih h with h' | h'
        · exact Or.inl h'
        · exact Or.inr (List.mem_cons_of_mem _ h')

theorem dictLookup_mem (c : DCache) (k : CKey) (e : CacheEntry)
    (h : dictLookup c k = some e) : (k, e) ∈ c := by
  induction c with
  | nil => simp [dictLookup] at h
  | cons he rest ih =>
    obtain ⟨k0, e0⟩ := he
    by_cases h0 : k0 = k
    · subst h0
      rw [dictLookup, if_pos rfl] at h
      obtain rfl : e0 = e := Option.some.inj h
      exact List.mem_cons_self _ _
    · rw [dictLookup, if_neg h0] at h
      exact List.mem_cons_of_mem _ (ih h)

/-! ## State bookkeeping lemmas -/

theorem cacheWrite_cache (st : RunState) (k : CKey) (e : CacheEntry) :
    (cacheWrite st k e).cache = dictInsert st.cache k e := by
  unfold cacheWrite
  by_cases h : (dictInsert st.cache k e).length % 10 = 0 <;> simp [h]

theorem cacheWrite_file (st : RunState) (k : CKey) (e : CacheEntry) :
    (cacheWrite st k e).file =
      if (dictInsert st.cache k e).length % 10 = 0 then dictInsert st.cache k e
      else st.file := by
  unfold cacheWrite
  by_cases h : (dictInsert st.cache k e).length % 10 = 0 <;> simp [h]

/-! ## Control-flow case analyses of the provider loops -/

/-- Either some OSRM attempt succeeds -- the loop returns a finite triple with
geometry and stores exactly that triple (without a `service` tag) under `k` --
or the loop fails having only consumed one request per attempt. -/
theorem osrmAttempts_cases (osrm : ℕ → OsrmResp) (k : CKey) (l : List ℕ) (st : RunState) :
    (∃ (du di : ℚ) (coords : Geo) (st2 : RunState),
        osrmAttempts osrm k l st = (some ((du : Cost), (di : Cost), some coords), st2) ∧
        st2.cache = dictInsert st.cache k ⟨(du : Cost), (di : Cost), some coords, none⟩ ∧
        (st2.file = st.file ∨ (st2.file = st2.cache ∧ st2.cache.length % 10 = 0))) ∨
    osrmAttempts osrm k l st = (none, ⟨st.cache, st.file, st.requests + l.length⟩) := by
  induction l generalizing st with
  | nil => exact Or.inr rfl
  | cons i rest ih =>
    cases hr : osrm i with
    | ok du di coords =>
      refine Or.inl ⟨du, di, coords,
        cacheWrite (bump st) k ⟨(du : Cost), (di : Cost), some coords, none⟩, ?_, ?_, ?_⟩
      · simp only [osrmAttempts, hr]
      · rw [cacheWrite_cache]
        rfl
      · rw [cacheWrite_file, cacheWrite_cache]
        by_cases hm : (dictInsert (bump st).cache k
            ⟨(du : Cost), (di : Cost), some coords, none⟩).length % 10 = 0
        · exact Or.inr ⟨by rw [if_pos hm], hm⟩
        · exact Or.inl (by rw [if_neg hm]; rfl)
    | err =>
      have hstep : osrmAttempts osrm k (i :: rest) st = osrmAttempts osrm k rest (bump st) := by
        simp only [osrmAttempts, hr]
      rw [hstep]
      rcases ih (bump st) with ⟨du, di, coords, st2, heq, hc, hf⟩ | heq
      · exact Or.inl ⟨du, di, coords, st2, heq, hc, hf⟩
      · rw [heq]
        refine Or.inr ?_
        simp only [bump, Prod.mk.injEq, RunState.mk.injEq, List.length_cons, true_and, and_true]
        omega
    | bad =>
      have hstep : osrmAttempts osrm k (i :: rest) st = osrmAttempts osrm k rest (bump st) := by
        simp only [osrmAttempts, hr]
      rw [hstep]
      rcases ih (bump st) with ⟨du, di, coords, st2, heq, hc, hf⟩ | heq
      · exact Or.inl ⟨du, di, coords, st2, heq, hc, hf⟩
      · rw [heq]
        refine Or.inr ?_
        simp only [bump, Prod.mk.injEq, RunState.mk.injEq, List.length_cons, true_and, and_true]
        omega

/-- Either some MapQuest attempt succeeds -- at least two shape points, even
count -- and the loop returns the normalized triple while storing it with the
`mapquest` tag under `k`, or every attempt fails and the loop returns the
failure sentinel having only consumed requests. -/
theorem mqAttempts_cases (mq : ℕ → MqResp) (k : CKey) (l : List ℕ) (st : RunState) :
    (∃ (t dk : ℚ) (coords : Geo) (st2 : RunState),
        mqAttempts mq k l st = (((t : Cost), ((dk * 1000 : ℚ) : Cost), some coords), st2) ∧
        st2.cache = dictInsert st.cache k
          ⟨(t : Cost), ((dk * 1000 : ℚ) : Cost), some coords, some Service.mapquest⟩ ∧
        (st2.file = st.file ∨ (st2.file = st2.cache ∧ st2.cache.length % 10 = 0))) ∨
    mqAttempts mq k l st = (failRes, ⟨st.cache, st.file, st.requests + l.length⟩) := by
  have hstep : ∀ (i : ℕ) (rest : List ℕ) (st : RunState),
      mqAttempts mq k (i :: rest) st = mqAttempts mq k rest (bump st) →
      ((∃ (t dk : ℚ) (coords : Geo) (st2 : RunState),
          mqAttempts mq k rest (bump st) = (((t : Cost), ((dk * 1000 : ℚ) : Cost), some coords), st2) ∧
          st2.cache = dictInsert (bump st).cache k
            ⟨(t : Cost), ((dk * 1000 : ℚ) : Cost), some coords, some Service.mapquest⟩ ∧
          (st2.file = (bump st).file ∨ (st2.file = st2.cache ∧ st2.cache.length % 10 = 0))) ∨
        mqAttempts mq k rest (bump st) =
          (failRes, ⟨(bump st).cache, (bump st).file, (bump st).requests + rest.length⟩)) →
      ((∃ (t dk : ℚ) (coords : Geo) (st2 : RunState),
          mqAttempts mq k (i :: rest) st = (((t : Cost), ((dk * 1000 : ℚ) : Cost), some coords), st2) ∧
          st2.cache = dictInsert st.cache k
            ⟨(t : Cost), ((dk * 1000 : ℚ) : Cost), some coords, some Service.mapquest⟩ ∧
          (st2.file = st.file ∨ (st2.file = st2.cache ∧ st2.cache.length % 10 = 0))) ∨
        mqAttempts mq k (i :: rest) st =
          (failRes, ⟨st.cache, st.file, st.requests + (i :: rest).length⟩)) := by
    intro i rest st h hc
    rw [h]
    rcases hc with ⟨t, dk, coords, st2, heq, hcc, hf⟩ | heq
    · exact Or.inl ⟨t, dk, coords, st2, heq, hcc, hf⟩
    · rw [heq]
      refine Or.inr ?_
      simp only [bump, Prod.mk.injEq, RunState.mk.injEq, List.length_cons, true_and, and_true]
      omega
  induction l generalizing st with
  | nil => exact Or.inr rfl
  | cons i rest ih =>
    cases hr : mq i with
    | okShape t dk sp =>
      by_cases hlen : 2 ≤ sp.length
      · cases hp : pairUp sp with
        | some coords =>
          refine Or.inl ⟨t, dk, coords, cacheWrite (bump st) k
            ⟨(t : Cost), ((dk * 1000 : ℚ) : Cost), some coords, some Service.mapquest⟩,
            ?_, ?_, ?_⟩
          · simp only [mqAttempts, hr, if_pos hlen, hp]
          · rw [cacheWrite_cache]
            rfl
          · rw [cacheWrite_file, cacheWrite_cache]
            by_cases hm : (dictInsert (bump st).cache k
                ⟨(t : Cost), ((dk * 1000 : ℚ) : Cost), some coords,
                  some Service.mapquest⟩).length % 10 = 0
            · exact Or.inr ⟨by rw [if_pos hm], hm⟩
            · exact Or.inl (by rw [if_neg hm]; rfl)
        | none =>
          exact hstep i rest st (by simp only [mqAttempts, hr, if_pos hlen, hp]) (ih (bump st))
      · exact hstep i rest st (by simp only [mqAttempts, hr, if_neg hlen]) (ih (bump st))
    | err => exact hstep i rest st (by simp only [mqAttempts, hr]) (ih (bump st))
    | bad => exact hstep i rest st (by simp only [mqAttempts, hr]) (ih (bump st))

/-- Control-flow of `get_mapquest_route`: a tag-checked cache hit, a
successful attempt (returned and written through with the `mapquest` tag
under the shared key), or the failure sentinel after three requests. -/
theorem get_mapquest_cases (mq : ℕ → MqResp) (s d : Coord) (st : RunState) :
    (∃ e, dictLookup st.cache (mkKey s d) = some e ∧ e.service = some Service.mapquest ∧
        get_mapquest_route mq s d st = ((e.duration, e.distance, e.geometry), st)) ∨
    (∃ (t dk : ℚ) (coords : Geo) (st2 : RunState),
        get_mapquest_route mq s d st = (((t : Cost), ((dk * 1000 : ℚ) : Cost), some coords), st2) ∧
        st2.cache = dictInsert st.cache (mkKey s d)
          ⟨(t : Cost), ((dk * 1000 : ℚ) : Cost), some coords, some Service.mapquest⟩ ∧
        (st2.file = st.file ∨ (st2.file = st2.cache ∧ st2.cache.length % 10 = 0))) ∨
    get_mapquest_route mq s d st = (failRes, ⟨st.cache, st.file, st.requests + 3⟩) := by
  cases hl : dictLookup st.cache (mkKey s d) with
  | some e =>
    by_cases hs : e.service = some Service.mapquest
    · exact Or.inl ⟨e, rfl, hs, by simp only [get_mapquest_route, hl, if_pos hs]⟩
    · have hrun : get_mapquest_route mq s d st = mqAttempts mq (mkKey s d) [0, 1, 2] st := by
        simp only [get_mapquest_route, hl, if_neg hs]
      rcases mqAttempts_cases mq (mkKey s d) [0, 1, 2] st with
        ⟨t, dk, coords, st2, heq, hc, hf⟩ | heq
      · exact Or.inr (Or.inl ⟨t, dk, coords, st2, hrun.trans heq, hc, hf⟩)
      · exact Or.inr (Or.inr (hrun.trans heq))
  | none =>
    have hrun : get_mapquest_route mq s d st = mqAttempts mq (mkKey s d) [0, 1, 2] st := by
      simp only [get_mapquest_route, hl]
    rcases mqAttempts_cases mq (mkKey s d) [0, 1, 2] st with
      ⟨t, dk, coords, st2, heq, hc, hf⟩ | heq
    · exact Or.inr (Or.inl ⟨t, dk, coords, st2, hrun.trans heq, hc, hf⟩)
    · exact Or.inr (Or.inr (hrun.trans heq))

/-- Control-flow of `get_route_with_geometry` on present coordinates: a cache
hit returned verbatim with no state change, an OSRM success, a MapQuest
fallback success, or the failure sentinel after six requests (nothing
written). -/
theorem get_route_cases (osrm : ℕ → OsrmResp) (mq : ℕ → MqResp) (s d : Coord) (st : RunState) :
    (∃ e, dictLookup st.cache (mkKey s d) = some e ∧
        get_route_with_geometry osrm mq (some s) (some d) st =
          ((e.duration, e.distance, e.geometry), st)) ∨
    (dictLookup st.cache (mkKey s d) = none ∧
      ((∃ (du di : ℚ) (coords : Geo) (st2 : RunState),
          get_route_with_geometry osrm mq (some s) (some d) st =
            (((du : Cost), (di : Cost), some coords), st2) ∧
          st2.cache = dictInsert st.cache (mkKey s d)
            ⟨(du : Cost), (di : Cost), some coords, none⟩ ∧
          (st2.file = st.file ∨ (st2.file = st2.cache ∧ st2.cache.length % 10 = 0))) ∨
        (∃ (t dk : ℚ) (coords : Geo) (st2 : RunState),
          get_route_with_geometry osrm mq (some s) (some d) st =
            (((t : Cost), ((dk * 1000 : ℚ) : Cost), some coords), st2) ∧
          st2.cache = dictInsert st.cache (mkKey s d)
            ⟨(t : Cost), ((dk * 1000 : ℚ) : Cost), some coords, some Service.mapquest⟩ ∧
          (st2.file = st.file ∨ (st2.file = st2.cache ∧ st2.cache.length % 10 = 0))) ∨
        get_route_with_geometry osrm mq (some s) (some d) st =
          (failRes, ⟨st.cache, st.file, st.requests + 6⟩))) := by
  cases hl : dictLookup st.cache (mkKey s d) with
  | some e =>
    exact Or.inl ⟨e, rfl, by simp only [get_route_with_geometry, hl]⟩
  | none =>
    refine Or.inr ⟨rfl, ?_⟩
    rcases osrmAttempts_cases osrm (mkKey s d) [0, 1, 2] st with
      ⟨du, di, coords, st2, heq, hc, hf⟩ | heq
    · exact Or.inl ⟨du, di, coords, st2, by simp only [get_route_with_geometry, hl, heq], hc, hf⟩
    · have hmid : get_route_with_geometry osrm mq (some s) (some d) st =
          get_mapquest_route mq s d ⟨st.cache, st.file, st.requests + 3⟩ := by
        simp only [get_route_with_geometry, hl, heq]
        rfl
      have hl2 : dictLookup (RunState.mk st.cache st.file (st.requests + 3)).cache
          (mkKey s d) = none := hl
      rcases get_mapquest_cases mq s d ⟨st.cache, st.file, st.requests + 3⟩ with
        ⟨e, he, _, _⟩ | ⟨t, dk, coords, st2, heq2, hc, hf⟩ | heq2
      · rw [hl2] at he
        exact absurd he (by simp)
      · exact Or.inr (Or.inl ⟨t, dk, coords, st2, hmid.trans heq2, hc, hf⟩)
      · refine Or.inr (Or.inr (hmid.trans (heq2.trans ?_)))
        simp only [Prod.mk.injEq, RunState.mk.injEq, true_and, and_true]

/-! ## C7: totality and the absent-coordinate short-circuit -/

/-- C7: `get_route_with_geometry` is total by construction (a plain function
of its arguments in this embedding, mirroring that every failure path in the
source is caught and converted to the sentinel), and when either coordinate
is `None` it returns the failure sentinel `(inf, inf, None)` immediately with
the run state -- cache, file, and request counter -- untouched: the cache is
not consulted and no provider request is made (line 84). -/
theorem C7_route_cost_total (osrm : ℕ → OsrmResp) (mq : ℕ → MqResp)
    (c : Option Coord) (st : RunState) :
    get_route_with_geometry osrm mq none c st = (failRes, st) ∧
    get_route_with_geometry osrm mq c none st = (failRes, st) := by
  constructor
  · cases c <;> rfl
  · cases c <;> rfl

/-! ## C9: the cache only ever holds successful provider responses -/

theorem cacheOK_insert {c : DCache} {k : CKey} {e : CacheEntry}
    (h : CacheOK c) (he : EntryOK e) : CacheOK (dictInsert c k e) := by
  intro ke hke
  rcases mem_dictInsert c k e ke hke with rfl | hmem
  · exact he
  · exact h ke hmem

/-- A single `get_route_with_geometry` call preserves cache health: the only
writes are the two success paths, each of which stores a finite duration, a
finite distance and a present geometry. -/
theorem routeCall_cacheOK (osrm : ℕ → OsrmResp) (mq : ℕ → MqResp)
    (s d : Option Coord) (st : RunState) (h : CacheOK st.cache) :
    CacheOK ((get_route_with_geometry osrm mq s d st).2).cache := by
  cases s with
  | none => cases d <;> exact h
  | some s =>
    cases d with
    | none => exact h
    | some d =>
      rcases get_route_cases osrm mq s d st with
        ⟨e, _, heq⟩ | ⟨_, ⟨du, di, coords, st2, heq, hc, _⟩ |
          ⟨t, dk, coords, st2, heq, hc, _⟩ | heq⟩
      · rw [heq]
        exact h
      · rw [heq]
        show CacheOK st2.cache
        rw [hc]
        exact cacheOK_insert h ⟨WithTop.coe_ne_top, WithTop.coe_ne_top, by simp⟩
      · rw [heq]
        show CacheOK st2.cache
        rw [hc]
        exact cacheOK_insert h ⟨WithTop.coe_ne_top, WithTop.coe_ne_top, by simp⟩
      · rw [heq]
        exact h

/-- C9: after any sequence of `get_route_with_geometry` calls, starting from
a healthy cache, every cache entry still has a finite duration, a finite
distance and a present geometry: the `(inf, inf, None)` failure sentinel (or
any placeholder) is never written into the cache, because both providers
write only on their success paths (lines 119-132 and 170-195) and the failure
path (lines 196-204) returns without writing. -/
theorem C9_cache_never_stores_failures (osrm : ℕ → OsrmResp) (mq : ℕ → MqResp)
    (calls : List (Coord × Coord)) (st : RunState) (h : CacheOK st.cache) :
    CacheOK (runCalls osrm mq calls st).cache := by
  induction calls generalizing st with
  | nil => exact h
  | cons p rest ih =>
    obtain ⟨s, d⟩ := p
    exact ih _ (routeCall_cacheOK osrm mq (some s) (some d) st h)

/-- Witness for C9 at a concrete run: two calls (one failing, one succeeding)
from the empty startup cache. -/
theorem C9_witness :
    CacheOK (runCalls (fun _ => OsrmResp.ok 9 7 [(1, 1), (2, 2)]) (fun _ => MqResp.err)
      [((1, 1), (2, 2)), ((3, 3), (4, 4))] ⟨[], [], 0⟩).cache :=
  C9_cache_never_stores_failures _ _ _ _ (by intro ke hke; exact absurd hke (List.not_mem_nil ke))

/-! ## C8: directional keys; repeat queries -/

/-- C8 counterexample (to the claim as stated): when every provider attempt
for a pair fails, the first call caches nothing, so querying the same pair a
second time issues six further provider requests rather than the zero
requests the claim asserts for any twice-queried pair. -/
theorem C8_cex :
    ((get_route_with_geometry (fun _ => OsrmResp.err) (fun _ => MqResp.err)
        (some (1, 2)) (some (3, 4)) ⟨[], [], 0⟩).2).requests = 6 ∧
    ((get_route_with_geometry (fun _ => OsrmResp.err) (fun _ => MqResp.err)
        (some (1, 2)) (some (3, 4))
        ((get_route_with_geometry (fun _ => OsrmResp.err) (fun _ => MqResp.err)
          (some (1, 2)) (some (3, 4)) ⟨[], [], 0⟩).2)).2).requests = 12 := by
  norm_num [get_route_with_geometry, get_mapquest_route, osrmAttempts, mqAttempts,
    mkKey, fmt6, dictLookup, bump, round_ofNat]

/-- C8 (amended): cache keys are directional -- for coordinates distinct
after rounding to six decimal places, a write for `(A, B)` leaves every
lookup for `(B, A)` unchanged -- and any call that returns with a geometry
(i.e. any call that did not end in the failure sentinel) leaves the state so
that a repeat call for the same directed pair, under any provider behaviour
whatsoever, returns the identical triple and the identical state: a pure
cache hit issuing zero provider requests.  (When the first call returns the
sentinel, nothing was cached and the repeat call re-queries the providers;
`C8_cex` shows the unamended claim fails there.) -/
theorem C8_amended_directional_and_hit :
    (∀ (c : DCache) (e : CacheEntry) (A B : Coord),
        (fmt6 A.1, fmt6 A.2) ≠ (fmt6 B.1, fmt6 B.2) →
        dictLookup (dictInsert c (mkKey A B) e) (mkKey B A) = dictLookup c (mkKey B A)) ∧
    (∀ (osrm : ℕ → OsrmResp) (mq : ℕ → MqResp) (A B : Coord) (st : RunState)
        (r : RouteRes) (st2 : RunState),
        get_route_with_geometry osrm mq (some A) (some B) st = (r, st2) →
        r.2.2 ≠ none →
        ∀ (osrm2 : ℕ → OsrmResp) (mq2 : ℕ → MqResp),
          get_route_with_geometry osrm2 mq2 (some A) (some B) st2 = (r, st2)) := by
  constructor
  · intro c e A B hAB
    apply dictLookup_insert_ne
    intro hk
    have hfst : (fmt6 B.1, fmt6 B.2) = (fmt6 A.1, fmt6 A.2) := congrArg Prod.fst hk
    exact hAB hfst.symm
  · intro osrm mq A B st r st2 hcall hgeo osrm2 mq2
    rcases get_route_cases osrm mq A B st with
      ⟨e, he, heq⟩ | ⟨_, ⟨du, di, coords, st3, heq, hc, _⟩ |
        ⟨t, dk, coords, st3, heq, hc, _⟩ | heq⟩
    · have h1 := hcall.symm.trans heq
      injection h1 with hr hst
      subst hr
      subst hst
      simp only [get_route_with_geometry, he]
    · have h1 := hcall.symm.trans heq
      injection h1 with hr hst
      subst hr
      subst hst
      have hlook : dictLookup st2.cache (mkKey A B) =
          some ⟨(du : Cost), (di : Cost), some coords, none⟩ := by
        rw [hc]
        exact dictLookup_insert_self _ _ _
      simp only [get_route_with_geometry, hlook]
    · have h1 := hcall.symm.trans heq
      injection h1 with hr hst
      subst hr
      subst hst
      have hlook : dictLookup st2.cache (mkKey A B) =
          some ⟨(t : Cost), ((dk * 1000 : ℚ) : Cost), some coords, some Service.mapquest⟩ := by
        rw [hc]
        exact dictLookup_insert_self _ _ _
      simp only [get_route_with_geometry, hlook]
    · have h1 := hcall.symm.trans heq
      injection h1 with hr hst
      subst hr
      exact absurd rfl hgeo

/-- Witness for C8 (amended) at concrete inputs: a write for the directed
pair `((1,2),(3,4))` does not affect the reverse lookup, and after a
successful OSRM call the repeat call (with both providers now failing) still
returns the cached triple with the state unchanged. -/
theorem C8_witness :
    dictLookup (dictInsert [] (mkKey (1, 2) (3, 4)) ⟨9, 7, some [(1, 1)], none⟩)
        (mkKey (3, 4) (1, 2)) = dictLookup [] (mkKey (3, 4) (1, 2)) ∧
    get_route_with_geometry (fun _ => OsrmResp.err) (fun _ => MqResp.err)
        (some (1, 2)) (some (3, 4))
        ⟨[(mkKey (1, 2) (3, 4), ⟨9, 7, some [(1, 1)], none⟩)], [], 1⟩ =
      (((9 : Cost), (7 : Cost), some [(1, 1)]),
        ⟨[(mkKey (1, 2) (3, 4), ⟨9, 7, some [(1, 1)], none⟩)], [], 1⟩) :=
  ⟨C8_amended_directional_and_hit.1 [] ⟨9, 7, some [(1, 1)], none⟩ (1, 2) (3, 4)
      (by norm_num [fmt6, round_ofNat]),
    C8_amended_directional_and_hit.2 (fun _ => OsrmResp.ok 9 7 [(1, 1)]) (fun _ => MqResp.err)
      (1, 2) (3, 4) ⟨[], [], 0⟩ ((9 : Cost), (7 : Cost), some [(1, 1)])
      ⟨[(mkKey (1, 2) (3, 4), ⟨9, 7, some [(1, 1)], none⟩)], [], 1⟩
      (by norm_num [get_route_with_geometry, osrmAttempts, dictLookup, dictInsert,
        cacheWrite, bump, mkKey, fmt6, round_ofNat])
      (by simp) (fun _ => OsrmResp.err) (fun _ => MqResp.err)⟩

/-! ## C4: the fallback provider's cache key -/

/-- C4 counterexample (to the claim as stated): after OSRM fails and MapQuest
succeeds for the pair `((1,2),(3,4))`, the cache's single entry sits at the
same key the primary uses (tagged only by the `service` field), and a
subsequent `get_route_with_geometry` call for that pair is answered by that
secondary-sourced entry through the untagged primary lookup of line 89, with
the state (request counter included) unchanged.  Furthermore, calling the
fallback while a primary-sourced entry occupies the key replaces that entry
(the two differently-sourced entries cannot coexist). -/
theorem C4_cex :
    ((get_route_with_geometry (fun _ => OsrmResp.err)
        (fun _ => MqResp.okShape 100 2 [1, 2, 3, 4])
        (some (1, 2)) (some (3, 4)) ⟨[], [], 0⟩).2).cache =
      [(mkKey (1, 2) (3, 4),
        ⟨(100 : Cost), (2000 : Cost), some [(1, 2), (3, 4)], some Service.mapquest⟩)] ∧
    get_route_with_geometry (fun _ => OsrmResp.err) (fun _ => MqResp.err)
        (some (1, 2)) (some (3, 4))
        ⟨[(mkKey (1, 2) (3, 4),
          ⟨(100 : Cost), (2000 : Cost), some [(1, 2), (3, 4)], some Service.mapquest⟩)], [], 4⟩ =
      (((100 : Cost), (2000 : Cost), some [(1, 2), (3, 4)]),
        ⟨[(mkKey (1, 2) (3, 4),
          ⟨(100 : Cost), (2000 : Cost), some [(1, 2), (3, 4)], some Service.mapquest⟩)], [], 4⟩) ∧
    ((get_mapquest_route (fun _ => MqResp.okShape 100 2 [1, 2, 3, 4]) (1, 2) (3, 4)
        ⟨[(mkKey (1, 2) (3, 4), ⟨5, 5, some [(9, 9)], none⟩)], [], 0⟩).2).cache =
      [(mkKey (1, 2) (3, 4),
        ⟨(100 : Cost), (2000 : Cost), some [(1, 2), (3, 4)], some Service.mapquest⟩)] := by
  refine ⟨?_, ?_, ?_⟩
  · norm_num [get_route_with_geometry, get_mapquest_route, osrmAttempts, mqAttempts,
      pairUp, mkKey, fmt6, dictLookup, dictInsert, cacheWrite, bump, round_ofNat]
  · norm_num [get_route_with_geometry, get_mapquest_route, osrmAttempts, mqAttempts,
      pairUp, mkKey, fmt6, dictLookup, dictInsert, cacheWrite, bump, round_ofNat]
  · norm_num [get_route_with_geometry, get_mapquest_route, osrmAttempts, mqAttempts,
      pairUp, mkKey, fmt6, dictLookup, dictInsert, cacheWrite, bump, round_ofNat]
    rw [if_neg (fun h => Option.noConfusion h)]

/-- C4 (amended): both providers key the cache by the same directed
coordinate pair; a secondary-sourced entry is distinguished from a
primary-sourced one only by the `service` field of the stored record.
Consequently (i) the primary-path lookup, which does not inspect the tag,
returns whatever entry occupies the key -- including a secondary-sourced
one -- and (ii) a successful fallback attempt writes its tagged record at
that shared key, overwriting any entry (in particular a primary-sourced one)
already stored there. -/
theorem C4_amended_shared_key :
    (∀ (osrm : ℕ → OsrmResp) (mq : ℕ → MqResp) (A B : Coord) (st : RunState) (e : CacheEntry),
        dictLookup st.cache (mkKey A B) = some e →
        get_route_with_geometry osrm mq (some A) (some B) st =
          ((e.duration, e.distance, e.geometry), st)) ∧
    (∀ (mq : ℕ → MqResp) (A B : Coord) (st : RunState) (t dk : ℚ) (sp : List ℚ) (coords : Geo),
        (dictLookup st.cache (mkKey A B)).map CacheEntry.service ≠ some (some Service.mapquest) →
        mq 0 = MqResp.okShape t dk sp → 2 ≤ sp.length → pairUp sp = some coords →
        dictLookup ((get_mapquest_route mq A B st).2).cache (mkKey A B) =
          some ⟨(t : Cost), ((dk * 1000 : ℚ) : Cost), some coords, some Service.mapquest⟩) := by
  constructor
  · intro osrm mq A B st e he
    simp only [get_route_with_geometry, he]
  · intro mq A B st t dk sp coords hserv hmq hlen hp
    have hrun : get_mapquest_route mq A B st = mqAttempts mq (mkKey A B) [0, 1, 2] st := by
      cases hl : dictLookup st.cache (mkKey A B) with
      | some e =>
        rw [hl] at hserv
        have hs : ¬e.service = some Service.mapquest := by
          intro h
          exact hserv (by simp [h])
        simp only [get_mapquest_route, hl, if_neg hs]
      | none => simp only [get_mapquest_route, hl]
    have hfirst : mqAttempts mq (mkKey A B) [0, 1, 2] st =
        (((t : Cost), ((dk * 1000 : ℚ) : Cost), some coords),
          cacheWrite (bump st) (mkKey A B)
            ⟨(t : Cost), ((dk * 1000 : ℚ) : Cost), some coords, some Service.mapquest⟩) := by
      simp only [mqAttempts, hmq, if_pos hlen, hp]
    rw [hrun, hfirst]
    show dictLookup (cacheWrite (bump st) (mkKey A B) _).cache (mkKey A B) = _
    rw [cacheWrite_cache]
    exact dictLookup_insert_self _ _ _

/-- Witness for C4 (amended): the primary lookup returns a `mapquest`-tagged
entry, and a fallback success overwrites a primary-sourced entry at the same
key. -/
theorem C4_witness :
    get_route_with_geometry (fun _ => OsrmResp.err) (fun _ => MqResp.err)
        (some (1, 2)) (some (3, 4))
        ⟨[(mkKey (1, 2) (3, 4), ⟨8, 6, some [(2, 2)], some Service.mapquest⟩)], [], 0⟩ =
      (((8 : Cost), (6 : Cost), some [(2, 2)]),
        ⟨[(mkKey (1, 2) (3, 4), ⟨8, 6, some [(2, 2)], some Service.mapquest⟩)], [], 0⟩) ∧
    dictLookup ((get_mapquest_route (fun _ => MqResp.okShape 100 2 [1, 2, 3, 4]) (1, 2) (3, 4)
        ⟨[(mkKey (1, 2) (3, 4), ⟨5, 5, some [(9, 9)], none⟩)], [], 0⟩).2).cache
        (mkKey (1, 2) (3, 4)) =
      some ⟨(100 : Cost), ((2 * 1000 : ℚ) : Cost), some [(1, 2), (3, 4)], some Service.mapquest⟩ :=
  ⟨C4_amended_shared_key.1 (fun _ => OsrmResp.err) (fun _ => MqResp.err) (1, 2) (3, 4)
      ⟨[(mkKey (1, 2) (3, 4), ⟨8, 6, some [(2, 2)], some Service.mapquest⟩)], [], 0⟩
      ⟨8, 6, some [(2, 2)], some Service.mapquest⟩ (by rw [dictLookup, if_pos rfl]),
    C4_amended_shared_key.2 (fun _ => MqResp.okShape 100 2 [1, 2, 3, 4]) (1, 2) (3, 4)
      ⟨[(mkKey (1, 2) (3, 4), ⟨5, 5, some [(9, 9)], none⟩)], [], 0⟩ 100 2 [1, 2, 3, 4]
      [(1, 2), (3, 4)] (by rw [dictLookup, if_pos rfl]; simp) rfl (by norm_num) (by norm_num [pairUp])⟩

/-! ## C5: flush cadence and termination -/

/-- After one call the persisted file is unchanged unless the call inserted
an entry bringing the total cache size to a multiple of ten, in which case
the whole cache was flushed. -/
theorem routeCall_file_cases (osrm : ℕ → OsrmResp) (mq : ℕ → MqResp)
    (s d : Option Coord) (st : RunState) :
    ((get_route_with_geometry osrm mq s d st).2).file = st.file ∨
    (((get_route_with_geometry osrm mq s d st).2).file =
        ((get_route_with_geometry osrm mq s d st).2).cache ∧
      ((get_route_with_geometry osrm mq s d st).2).cache.length % 10 = 0) := by
  cases s with
  | none => cases d <;> exact Or.inl rfl
  | some s =>
    cases d with
    | none => exact Or.inl rfl
    | some d =>
      rcases get_route_cases osrm mq s d st with
        ⟨e, _, heq⟩ | ⟨_, ⟨du, di, coords, st2, heq, _, hf⟩ |
          ⟨t, dk, coords, st2, heq, _, hf⟩ | heq⟩
      · rw [heq]
        exact Or.inl rfl
      · rw [heq]
        exact hf
      · rw [heq]
        exact hf
      · rw [heq]
        exact Or.inl rfl

/-- An always-succeeding OSRM oracle used by the C5 counterexample. -/
def osrmAlwaysOk : ℕ → OsrmResp := fun _ => .ok 1 1 [(2, 2), (3, 3)]

/-- Ten ordered coordinate pairs with pairwise-distinct cache keys, all
distinct from `seededState`'s key. -/
def tenFreshPairs : List (Coord × Coord) :=
  (List.range 10).map (fun i => (((i : ℚ) + 1, 1), (1000, 1000)))

/-- A run state as of startup: one entry loaded from the persisted file. -/
def seededState : RunState :=
  ⟨[(mkKey (500, 500) (600, 600), ⟨1, 1, some [(2, 2)], none⟩)],
   [(mkKey (500, 500) (600, 600), ⟨1, 1, some [(2, 2)], none⟩)], 0⟩

/-- C5 counterexample (to the claim as stated): starting from a cache with
one startup-loaded entry, ten successful calls add ten new entries, but the
file is flushed only when the total size reached ten -- that is, after the
ninth new entry -- and `__main__` performs no flush at termination, so at
normal exit the persisted file holds ten entries while the in-memory cache
holds eleven: the tenth new entry is never persisted, contradicting both
"flushed after every 10th newly added entry (counting entries added during
the run)" and "on normal exit the persistent file contains every in-memory
entry". -/
theorem C5_cex :
    (runCalls osrmAlwaysOk (fun _ => MqResp.err) tenFreshPairs seededState).cache.length = 11 ∧
    (runCalls osrmAlwaysOk (fun _ => MqResp.err) tenFreshPairs seededState).file.length = 10 := by
  norm_num [runCalls, tenFreshPairs, seededState, osrmAlwaysOk, List.range_succ,
    get_route_with_geometry, get_mapquest_route, osrmAttempts, mqAttempts,
    mkKey, fmt6, dictLookup, dictInsert, cacheWrite, bump, round_ofNat, Prod.ext_iff]

/-- C5 (amended): `save_geometry_cache` runs exactly when, after an
insertion, `len(geometry_cache) % 10 == 0` -- the total cache size, counting
entries loaded at startup, not the number of entries added during the run --
and the matrix-build loop's periodic saves are the only flushes: `__main__`
never flushes at termination, so at normal exit the persisted file is either
the startup file or the cache as it stood at the last size-divisible-by-ten
insertion (in particular the file size is always a multiple of ten then). -/
theorem C5_amended_flush_cadence (osrm : ℕ → OsrmResp) (mq : ℕ → MqResp) :
    (∀ (st : RunState) (k : CKey) (e : CacheEntry),
      (cacheWrite st k e).file =
        if (dictInsert st.cache k e).length % 10 = 0 then dictInsert st.cache k e
        else st.file) ∧
    (∀ (calls : List (Coord × Coord)) (st : RunState),
      (runCalls osrm mq calls st).file = st.file ∨
      (runCalls osrm mq calls st).file.length % 10 = 0) := by
  constructor
  · intro st k e
    exact cacheWrite_file st k e
  · intro calls
    induction calls with
    | nil => exact fun st => Or.inl rfl
    | cons p rest ih =>
      intro st
      obtain ⟨s, d⟩ := p
      have hone := routeCall_file_cases osrm mq (some s) (some d) st
      have hrest := ih (get_route_with_geometry osrm mq (some s) (some d) st).2
      have hrun : runCalls osrm mq ((s, d) :: rest) st =
          runCalls osrm mq rest (get_route_with_geometry osrm mq (some s) (some d) st).2 := rfl
      rw [hrun]
      rcases hrest with hfile | hmod
      · rw [hfile]
        rcases hone with h | ⟨h1, h2⟩
        · exact Or.inl h
        · exact Or.inr (by rw [h1]; exact h2)
      · exact Or.inr hmod

/-! ## C10: a MapQuest response with a degenerate shape is a failed attempt -/

/-- A MapQuest response that, if it carries a route at all, has fewer than
two shape points (the `shape_points and len(shape_points) > 1` guard of
line 178 rejects it). -/
def ShortShape (r : MqResp) : Prop :=
  ∀ (t dk : ℚ) (sp : List ℚ), r = MqResp.okShape t dk sp → sp.length < 2

/-- When every attempt's response fails the shape guard, the whole MapQuest
loop fails: sentinel result, nothing written, one request per attempt. -/
theorem mqAttempts_allFail (mq : ℕ → MqResp) (k : CKey) :
    ∀ (l : List ℕ) (st : RunState), (∀ i ∈ l, ShortShape (mq i)) →
      mqAttempts mq k l st = (failRes, ⟨st.cache, st.file, st.requests + l.length⟩) := by
  intro l
  induction l with
  | nil =>
    intro st _
    rfl
  | cons i rest ih =>
    intro st h
    have hstep : mqAttempts mq k (i :: rest) st = mqAttempts mq k rest (bump st) := by
      cases hr : mq i with
      | okShape t dk sp =>
        have hlt : sp.length < 2 := h i (List.mem_cons_self i rest) t dk sp hr
        simp only [mqAttempts, hr, if_neg (Nat.not_le_of_lt hlt)]
      | err => simp only [mqAttempts, hr]
      | bad => simp only [mqAttempts, hr]
    rw [hstep, ih (bump st) (fun j hj => h j (List.mem_cons_of_mem i hj))]
    simp only [bump, Prod.mk.injEq, RunState.mk.injEq, List.length_cons, true_and, and_true]
    omega

/-- C10: the fallback path never produces a cost-known/geometry-absent
result.  (i) If all three attempts' responses fail the two-shape-points guard
(even while carrying a valid distance and duration), `get_mapquest_route`
returns the failure sentinel `(inf, inf, None)` with nothing written to the
cache, three requests having been spent.  (ii) In full generality, whenever a
`get_mapquest_route` call returns an absent geometry, its result is exactly
the failure sentinel and the cache is unchanged. -/
theorem C10_fallback_never_cost_only (mq : ℕ → MqResp) (s d : Coord) (st : RunState)
    (hok : CacheOK st.cache) :
    ((∀ i ∈ [0, 1, 2], ShortShape (mq i)) →
      (dictLookup st.cache (mkKey s d)).map CacheEntry.service ≠ some (some Service.mapquest) →
      get_mapquest_route mq s d st = (failRes, ⟨st.cache, st.file, st.requests + 3⟩)) ∧
    (∀ (r : RouteRes) (st2 : RunState), get_mapquest_route mq s d st = (r, st2) →
      r.2.2 = none → r = failRes ∧ st2.cache = st.cache) := by
  constructor
  · intro hshort hserv
    have hrun : get_mapquest_route mq s d st = mqAttempts mq (mkKey s d) [0, 1, 2] st := by
      cases hl : dictLookup st.cache (mkKey s d) with
      | some e =>
        rw [hl] at hserv
        have hs : ¬e.service = some Service.mapquest := by
          intro h
          exact hserv (by simp [h])
        simp only [get_mapquest_route, hl, if_neg hs]
      | none => simp only [get_mapquest_route, hl]
    exact hrun.trans (mqAttempts_allFail mq (mkKey s d) [0, 1, 2] st hshort)
  · intro r st2 hcall hgeo
    rcases get_mapquest_cases mq s d st with
      ⟨e, he, _, heq⟩ | ⟨t, dk, coords, st3, heq, _, _⟩ | heq
    · have h1 := hcall.symm.trans heq
      injection h1 with hr hst
      subst hr
      subst hst
      have hmem := dictLookup_mem _ (mkKey s d) e he
      exact absurd hgeo (hok (mkKey s d, e) hmem).2.2
    · have h1 := hcall.symm.trans heq
      injection h1 with hr hst
      subst hr
      exact absurd hgeo (by simp)
    · have h1 := hcall.symm.trans heq
      injection h1 with hr hst
      subst hr
      subst hst
      exact ⟨rfl, rfl⟩

/-- Witness for C10: three responses carrying a valid distance and duration
but a single shape point end in the failure sentinel with nothing cached. -/
theorem C10_witness :
    get_mapquest_route (fun _ => MqResp.okShape 5 7 [1]) (1, 1) (2, 2) ⟨[], [], 0⟩ =
      (failRes, ⟨[], [], 3⟩) :=
  (C10_fallback_never_cost_only (fun _ => MqResp.okShape 5 7 [1]) (1, 1) (2, 2) ⟨[], [], 0⟩
      (by intro ke hke; exact absurd hke (List.not_mem_nil ke))).1
    (by intro i _ t dk sp hr; injection hr with h1 h2 h3; rw [h3.symm]; norm_num)
    (by simp [dictLookup])

/-! ## The permutation enumeration -/

theorem pickEach_mem : ∀ (l : List ℕ) (y : ℕ) (r : List ℕ),
    (y, r) ∈ pickEach l ↔ ∃ l1 l2, l = l1 ++ y :: l2 ∧ r = l1 ++ l2 := by
  intro l
  induction l with
  | nil =>
    intro y r
    constructor
    · intro h
      exact absurd h (List.not_mem_nil _)
    · rintro ⟨l1, l2, h, _⟩
      cases l1 <;> simp at h
  | cons x xs ih =>
    intro y r
    constructor
    · intro h
      rw [pickEach] at h
      rcases List.mem_cons.1 h with h1 | h2
      · injection h1 with h1a h1b
        refine ⟨[], xs, ?_, ?_⟩
        · rw [h1a]
          rfl
        · rw [h1b]
          rfl
      · rcases List.mem_map.1 h2 with ⟨⟨z, r'⟩, hz, heq⟩
        dsimp only at heq
        injection heq with hz1 hz2
        rcases (ih z r').1 hz with ⟨l1, l2, hl12, hr'⟩
        refine ⟨x :: l1, l2, ?_, ?_⟩
        · rw [List.cons_append, ← hz1, ← hl12]
        · rw [← hz2, hr']
          rfl
    · rintro ⟨l1, l2, hl, hr⟩
      cases l1 with
      | nil =>
        simp only [List.nil_append] at hl hr
        injection hl with h1 h2
        subst h1
        subst h2
        subst hr
        rw [pickEach]
        exact List.mem_cons_self _ _
      | cons a l1' =>
        rw [List.cons_append] at hl
        injection hl with h1 h2
        subst h1
        have hmem : (y, l1' ++ l2) ∈ pickEach xs := (ih y (l1' ++ l2)).2 ⟨l1', l2, h2, rfl⟩
        rw [pickEach]
        refine List.mem_cons_of_mem _ (List.mem_map.2 ⟨(y, l1' ++ l2), hmem, ?_⟩)
        rw [hr]
        rfl

theorem permsAux_mem : ∀ (fuel : ℕ) (l : List ℕ), l.length ≤ fuel →
    ∀ p, p ∈ permsAux fuel l ↔ List.Perm p l := by
  intro fuel
  induction fuel with
  | zero =>
    intro l hl p
    have h0 : l = [] := List.length_eq_zero.1 (Nat.le_zero.1 hl)
    subst h0
    simp [permsAux, List.perm_nil]
  | succ fuel ih =>
    intro l hl p
    cases l with
    | nil => simp [permsAux, List.perm_nil]
    | cons x xs =>
      simp only [permsAux, List.isEmpty_cons, if_neg (by simp : ¬(false = true))]
      constructor
      · intro h
        rcases List.mem_flatMap.1 h with ⟨⟨y, r⟩, hpick, hmap⟩
        rcases List.mem_map.1 hmap with ⟨q, hq, hpq⟩
        subst hpq
        rcases (pickEach_mem (x :: xs) y r).1 hpick with ⟨l1, l2, hl12, hr⟩
        have hrlen : r.length ≤ fuel := by
          have hlen := congrArg List.length hl12
          simp only [List.length_cons, List.length_append] at hlen
          rw [hr]
          simp only [List.length_cons, List.length_append] at hl ⊢
          omega
        have hq' : List.Perm q r := (ih r hrlen q).1 hq
        rw [hl12]
        have h2 : List.Perm (y :: q) (y :: (l1 ++ l2)) := by
          rw [hr] at hq'
          exact hq'.cons y
        exact h2.trans List.perm_middle.symm
      · intro hp
        cases p with
        | nil =>
          have := hp.length_eq
          simp at this
        | cons y q =>
          have hy : y ∈ x :: xs := hp.mem_iff.1 (List.mem_cons_self y q)
          rcases List.append_of_mem hy with ⟨l1, l2, hl12⟩
          have hq : List.Perm q (l1 ++ l2) := by
            rw [hl12] at hp
            exact (hp.trans List.perm_middle).cons_inv
          have hlen : (l1 ++ l2).length ≤ fuel := by
            have hlen2 := congrArg List.length hl12
            simp only [List.length_cons, List.length_append] at hlen2 hl
            simp only [List.length_append]
            omega
          refine List.mem_flatMap.2 ⟨(y, l1 ++ l2),
            (pickEach_mem _ y _).2 ⟨l1, l2, hl12, rfl⟩, ?_⟩
          exact List.mem_map.2 ⟨q, (ih _ hlen q).2 hq, rfl⟩

/-- The enumeration `list(permutations(locations))` contains exactly the permutations of
`locations`. -/
theorem perms_mem (l : List ℕ) (p : List ℕ) : p ∈ perms l ↔ List.Perm p l :=
  permsAux_mem l.length l le_rfl p

/-! ## The brute-force loop (C1, C2) -/

theorem bestLoop_noimprove (M : ℕ → ℕ → Cost) :
    ∀ (l : List (List ℕ)) (b : Option (List ℕ)) (d : Cost),
      (∀ p ∈ l, ¬ pathDist M (0 :: p ++ [0]) < d) → bestLoop M l b d = (b, d) := by
  intro l
  induction l with
  | nil =>
    intro b d _
    rfl
  | cons p rest ih =>
    intro b d h
    have hp : ¬ pathDist M (0 :: p ++ [0]) < d := h p (List.mem_cons_self p rest)
    simp only [bestLoop, if_neg hp]
    exact ih b d (fun q hq => h q (List.mem_cons_of_mem p hq))

theorem bestLoop_improve (M : ℕ → ℕ → Cost) :
    ∀ (l : List (List ℕ)) (b : Option (List ℕ)) (d : Cost),
      (∃ p ∈ l, pathDist M (0 :: p ++ [0]) < d) →
      ∃ (l1 : List (List ℕ)) (p : List ℕ) (l2 : List (List ℕ)),
        l = l1 ++ p :: l2 ∧
        bestLoop M l b d = (some (0 :: p ++ [0]), pathDist M (0 :: p ++ [0])) ∧
        pathDist M (0 :: p ++ [0]) < d ∧
        (∀ q ∈ l, pathDist M (0 :: p ++ [0]) ≤ pathDist M (0 :: q ++ [0])) ∧
        (∀ q ∈ l1, pathDist M (0 :: p ++ [0]) < pathDist M (0 :: q ++ [0])) := by
  intro l
  induction l with
  | nil =>
    intro b d h
    simp at h
  | cons x rest ih =>
    intro b d h
    by_cases hx : pathDist M (0 :: x ++ [0]) < d
    · have hstep : bestLoop M (x :: rest) b d =
          bestLoop M rest (some (0 :: x ++ [0])) (pathDist M (0 :: x ++ [0])) := by
        simp only [bestLoop, if_pos hx]
      by_cases hrest : ∃ q ∈ rest, pathDist M (0 :: q ++ [0]) < pathDist M (0 :: x ++ [0])
      · rcases ih (some (0 :: x ++ [0])) (pathDist M (0 :: x ++ [0])) hrest with
          ⟨l1, p, l2, hsplit, heq, hlt, hall, hfirst⟩
        refine ⟨x :: l1, p, l2, by rw [hsplit, List.cons_append], hstep.trans heq,
          lt_trans hlt hx, ?_, ?_⟩
        · intro q hq
          rcases List.mem_cons.1 hq with rfl | hq'
          · exact le_of_lt hlt
          · exact hall q hq'
        · intro q hq
          rcases List.mem_cons.1 hq with rfl | hq'
          · exact hlt
          · exact hfirst q hq'
      · push_neg at hrest
        have hnone : bestLoop M rest (some (0 :: x ++ [0])) (pathDist M (0 :: x ++ [0])) =
            (some (0 :: x ++ [0]), pathDist M (0 :: x ++ [0])) :=
          bestLoop_noimprove M rest _ _ (fun q hq => not_lt_of_le (hrest q hq))
        refine ⟨[], x, rest, rfl, hstep.trans hnone, hx, ?_, by simp⟩
        intro q hq
        rcases List.mem_cons.1 hq with rfl | hq'
        · exact le_refl _
        · exact hrest q hq'
    · have hstep : bestLoop M (x :: rest) b d = bestLoop M rest b d := by
        simp only [bestLoop, if_neg hx]
      have hd : d ≤ pathDist M (0 :: x ++ [0]) := le_of_not_lt hx
      have hrest : ∃ q ∈ rest, pathDist M (0 :: q ++ [0]) < d := by
        rcases h with ⟨p, hp, hplt⟩
        rcases List.mem_cons.1 hp with rfl | hp'
        · exact absurd hplt hx
        · exact ⟨p, hp', hplt⟩
      rcases ih b d hrest with ⟨l1, p, l2, hsplit, heq, hlt, hall, hfirst⟩
      refine ⟨x :: l1, p, l2, by rw [hsplit, List.cons_append], hstep.trans heq, hlt, ?_, ?_⟩
      · intro q hq
        rcases List.mem_cons.1 hq with rfl | hq'
        · exact le_of_lt (lt_of_lt_of_le hlt hd)
        · exact hall q hq'
      · intro q hq
        rcases List.mem_cons.1 hq with rfl | hq'
        · exact lt_of_lt_of_le hlt hd
        · exact hfirst q hq'

/-! ## C1 and C2: the exact-search branch -/

/-- C1 counterexample (to the claim as stated): for `n = 2` with the single
edge pair unreachable in both directions (both matrix entries infinite), no
permutation's tour beats the initial `best_distance = float("inf")` under the
strict comparison of line 1061, so `best_order` remains `None`: the exact
branch returns no closed tour at all, although the claim promises one for
every cost matrix. -/
theorem C1_cex : (findOptimalRoute (fun _ _ => (⊤ : Cost)) 2).1 = none := by
  norm_num [findOptimalRoute, bestLoop, perms, permsAux, pickEach, pathDist]

/-- C1 (amended): for `2 ≤ n ≤ 8`, provided at least one permutation of the
non-depot indices has a finite closed-tour distance, the exact-search branch
returns the closed tour `[0, p..., 0]` of the first permutation `p` (in the
enumeration's natural order) attaining the minimum total distance: its
distance is ≤ that of every permutation's tour, and every permutation
enumerated before `p` has a strictly larger tour distance. -/
theorem C1_amended_exact_search (M : ℕ → ℕ → Cost) (n : ℕ) (h2 : 2 ≤ n) (h8 : n ≤ 8)
    (hfin : ∃ p, List.Perm p (List.range' 1 (n - 1)) ∧ pathDist M (0 :: p ++ [0]) < ⊤) :
    ∃ (p : List ℕ) (l1 l2 : List (List ℕ)),
      List.Perm p (List.range' 1 (n - 1)) ∧
      perms (List.range' 1 (n - 1)) = l1 ++ p :: l2 ∧
      findOptimalRoute M n = (some (0 :: p ++ [0]), pathDist M (0 :: p ++ [0])) ∧
      (∀ q, List.Perm q (List.range' 1 (n - 1)) →
        pathDist M (0 :: p ++ [0]) ≤ pathDist M (0 :: q ++ [0])) ∧
      (∀ q ∈ l1, pathDist M (0 :: p ++ [0]) < pathDist M (0 :: q ++ [0])) := by
  obtain ⟨p0, hp0, hp0fin⟩ := hfin
  have hex : ∃ q ∈ perms (List.range' 1 (n - 1)), pathDist M (0 :: q ++ [0]) < ⊤ :=
    ⟨p0, (perms_mem _ p0).2 hp0, hp0fin⟩
  obtain ⟨l1, p, l2, hsplit, heq, _, hall, hfirst⟩ :=
    bestLoop_improve M (perms (List.range' 1 (n - 1))) none ⊤ hex
  have hpmem : p ∈ perms (List.range' 1 (n - 1)) := by
    rw [hsplit]
    exact List.mem_append_right _ (List.mem_cons_self _ _)
  refine ⟨p, l1, l2, (perms_mem _ p).1 hpmem, hsplit, ?_, ?_, hfirst⟩
  · rw [findOptimalRoute, if_pos h8]
    exact heq
  · intro q hq
    exact hall q ((perms_mem _ q).2 hq)

/-- The spec's synthetic three-stop matrix: `d(0,1)=10, d(1,0)=10, d(0,2)=15,
d(2,0)=15, d(1,2)=5, d(2,1)=5`, diagonal zero. -/
def exampleM : ℕ → ℕ → Cost
  | 0, 1 => (10 : ℚ)
  | 1, 0 => (10 : ℚ)
  | 0, 2 => (15 : ℚ)
  | 2, 0 => (15 : ℚ)
  | 1, 2 => (5 : ℚ)
  | 2, 1 => (5 : ℚ)
  | _, _ => 0

/-- Witness for C1 (amended) on the spec's synthetic three-stop matrix. -/
theorem C1_witness :
    ∃ (p : List ℕ) (l1 l2 : List (List ℕ)),
      List.Perm p (List.range' 1 (3 - 1)) ∧
      perms (List.range' 1 (3 - 1)) = l1 ++ p :: l2 ∧
      findOptimalRoute exampleM 3 = (some (0 :: p ++ [0]), pathDist exampleM (0 :: p ++ [0])) ∧
      (∀ q, List.Perm q (List.range' 1 (3 - 1)) →
        pathDist exampleM (0 :: p ++ [0]) ≤ pathDist exampleM (0 :: q ++ [0])) ∧
      (∀ q ∈ l1, pathDist exampleM (0 :: p ++ [0]) < pathDist exampleM (0 :: q ++ [0])) :=
  C1_amended_exact_search exampleM 3 (by norm_num) (by norm_num)
    ⟨[1, 2], by rw [show List.range' 1 (3 - 1) = [1, 2] from rfl],
      by
        norm_num [pathDist, exampleM]
        exact lt_top_iff_ne_top.2 (WithTop.ofNat_ne_top 30)⟩

/-- C2: evaluation at the failing input.  With three stops and every pair
unreachable (all matrix entries the infinite sentinel), the exact branch
finishes with `best_order = None` and `best_distance = inf`: no closed tour
is produced at all (and `__main__` subsequently crashes at line 1084
subscripting `best_order[i]`), instead of surfacing a well-formed tour with
infinite total distance as the specification requires. -/
theorem C2_all_unreachable_no_tour :
    findOptimalRoute (fun _ _ => (⊤ : Cost)) 3 = (none, ⊤) := by
  norm_num [findOptimalRoute, bestLoop, perms, permsAux, pickEach, pathDist]

/-! ## C3: the geocoding sentinel check -/

/-- C3 counterexample (to the claim as stated): the coordinate
`(39.78373, 0)` differs from the sentinel pair (its longitude is not the
sentinel longitude), so the claim requires it to be returned as valid; but
line 70's conjunction `lat != 39.78373 and lng != -100.445882` is false
whenever the latitude alone matches, so every attempt rejects it and
`geocode_address` returns `None`. -/
theorem C3_cex :
    geocode_address (fun _ => GeoResp.ok sentLat 0) = none ∧
    ((sentLat, (0 : ℚ)) ≠ (sentLat, sentLng)) := by
  constructor
  · norm_num [geocode_address, geocodeAttempts, geocodeTry, sentLat, sentLng]
  · norm_num [Prod.mk.injEq, sentLng]

/-- C3 (amended): a response coordinate is accepted if and only if its
latitude differs from 39.78373 AND its longitude differs from -100.445882;
equivalently, a coordinate is rejected whenever it shares its latitude with
the sentinel or shares its longitude with the sentinel -- not only at the
exact sentinel pair. -/
theorem C3_amended_accept_iff (lat lng : ℚ) :
    geocode_address (fun _ => GeoResp.ok lat lng) = some (lat, lng) ↔
      (lat ≠ sentLat ∧ lng ≠ sentLng) := by
  constructor
  · intro h
    by_contra hc
    have htry : geocodeTry (GeoResp.ok lat lng) = none := by
      simp only [geocodeTry, if_neg hc]
    simp [geocode_address, geocodeAttempts, htry] at h
  · intro hc
    have htry : geocodeTry (GeoResp.ok lat lng) = some (lat, lng) := by
      simp only [geocodeTry, if_pos hc]
    simp [geocode_address, geocodeAttempts, htry]

/-- Witness for C3 (amended) at a concrete accepted coordinate. -/
theorem C3_witness :
    geocode_address (fun _ => GeoResp.ok 10 20) = some (10, 20) ↔
      ((10 : ℚ) ≠ sentLat ∧ (20 : ℚ) ≠ sentLng) :=
  C3_amended_accept_iff 10 20

/-! ## C6: the nearest-neighbour branch -/

theorem selectMin_mem_le (f : ℕ → Cost) :
    ∀ (l : List ℕ) (b : ℕ),
      selectMin f b l ∈ b :: l ∧ ∀ x ∈ b :: l, f (selectMin f b l) ≤ f x := by
  intro l
  induction l with
  | nil =>
    intro b
    refine ⟨List.mem_cons_self _ _, ?_⟩
    intro x hx
    rcases List.mem_cons.1 hx with rfl | hx'
    · exact le_refl _
    · exact absurd hx' (List.not_mem_nil x)
  | cons x rest ih =>
    intro b
    by_cases hfx : f x < f b
    · have hsel : selectMin f b (x :: rest) = selectMin f x rest := by
        simp only [selectMin, if_pos hfx]
      rcases ih x with ⟨hmem, hle⟩
      rw [hsel]
      refine ⟨List.mem_cons_of_mem b hmem, ?_⟩
      intro y hy
      rcases List.mem_cons.1 hy with rfl | hy'
      · exact le_of_lt (lt_of_le_of_lt (hle x (List.mem_cons_self x rest)) hfx)
      · exact hle y hy'
    · have hsel : selectMin f b (x :: rest) = selectMin f b rest := by
        simp only [selectMin, if_neg hfx]
      rcases ih b with ⟨hmem, hle⟩
      rw [hsel]
      have hbx : f b ≤ f x := le_of_not_lt hfx
      constructor
      · rcases List.mem_cons.1 hmem with h | hmem'
        · rw [h]
          exact List.mem_cons_self _ _
        · exact List.mem_cons_of_mem _ (List.mem_cons_of_mem _ hmem')
      · intro y hy
        rcases List.mem_cons.1 hy with rfl | hy'
        · exact hle y (List.mem_cons_self _ _)
        · rcases List.mem_cons.1 hy' with rfl | hy''
          · exact le_trans (hle b (List.mem_cons_self _ _)) hbx
          · exact hle y (List.mem_cons_of_mem _ hy'')

theorem selectMin_tie (f : ℕ → Cost) :
    ∀ (l : List ℕ) (b : ℕ), (b :: l).Sorted (· ≤ ·) →
      ∀ x ∈ b :: l, f x = f (selectMin f b l) → selectMin f b l ≤ x := by
  intro l
  induction l with
  | nil =>
    intro b _ x hx _
    rcases List.mem_cons.1 hx with rfl | hx'
    · exact le_refl _
    · exact absurd hx' (List.not_mem_nil x)
  | cons x rest ih =>
    intro b hsort y hy hfy
    have hb : ∀ z ∈ x :: rest, b ≤ z := (List.sorted_cons.1 hsort).1
    have hsx : (x :: rest).Sorted (· ≤ ·) := (List.sorted_cons.1 hsort).2
    have hsbrest : (b :: rest).Sorted (· ≤ ·) := by
      rw [List.sorted_cons]
      exact ⟨fun z hz => hb z (List.mem_cons_of_mem x hz), (List.sorted_cons.1 hsx).2⟩
    by_cases hfx : f x < f b
    · have hsel : selectMin f b (x :: rest) = selectMin f x rest := by
        simp only [selectMin, if_pos hfx]
      rw [hsel] at hfy ⊢
      rcases List.mem_cons.1 hy with rfl | hy'
      · exfalso
        have h1 : f (selectMin f x rest) ≤ f x :=
          (selectMin_mem_le f rest x).2 x (List.mem_cons_self x rest)
        rw [← hfy] at h1
        exact absurd (lt_of_le_of_lt h1 hfx) (lt_irrefl _)
      · exact ih x hsx y hy' hfy
    · have hsel : selectMin f b (x :: rest) = selectMin f b rest := by
        simp only [selectMin, if_neg hfx]
      rw [hsel] at hfy ⊢
      have hbx : f b ≤ f x := le_of_not_lt hfx
      rcases List.mem_cons.1 hy with h | hy'
      · rw [h]
        exact ih b hsbrest b (List.mem_cons_self b rest) (h ▸ hfy)
      · rcases List.mem_cons.1 hy' with h | hy''
        · have h1 : f (selectMin f b rest) ≤ f b :=
            (selectMin_mem_le f rest b).2 b (List.mem_cons_self b rest)
          have h2 : f b = f (selectMin f b rest) :=
            le_antisymm (le_trans hbx (le_of_eq (h ▸ hfy))) h1
          have h3 : selectMin f b rest ≤ b :=
            ih b hsbrest b (List.mem_cons_self b rest) h2
          rw [h]
          exact le_trans h3 (hb x (List.mem_cons_self x rest))
        · exact ih b hsbrest y (List.mem_cons_of_mem b hy'') hfy

/-- The nearest-neighbour loop performs a greedy traversal and emits a
permutation of the unvisited stops followed by the single depot return. -/
theorem nnLoop_greedy (M : ℕ → ℕ → Cost) :
    ∀ (fuel : ℕ) (l : List ℕ) (current : ℕ), l.length = fuel → l.Sorted (· ≤ ·) →
      Greedy M current l (nnLoop M fuel current l) ∧
      ∃ σ, nnLoop M fuel current l = σ ++ [0] ∧ List.Perm σ l := by
  intro fuel
  induction fuel with
  | zero =>
    intro l current hlen _
    have h0 : l = [] := List.length_eq_zero.1 hlen
    subst h0
    exact ⟨Greedy.nil current, [], rfl, List.Perm.refl []⟩
  | succ fuel ih =>
    intro l current hlen hsort
    cases l with
    | nil => simp at hlen
    | cons x rest =>
      have hsel := selectMin_mem_le (M current) rest x
      have hnxt : selectMin (M current) x rest ∈ x :: rest := hsel.1
      have hstep : IsGreedyStep M current (x :: rest) (selectMin (M current) x rest) :=
        ⟨hnxt, hsel.2, fun y hy hfy => selectMin_tie (M current) rest x hsort y hy hfy⟩
      have herase_len : ((x :: rest).erase (selectMin (M current) x rest)).length = fuel := by
        rw [List.length_erase_of_mem hnxt]
        simp only [List.length_cons] at hlen ⊢
        omega
      have herase_sort : ((x :: rest).erase (selectMin (M current) x rest)).Sorted (· ≤ ·) :=
        hsort.sublist (List.erase_sublist _ _)
      obtain ⟨hg, σ, hσ, hperm⟩ :=
        ih ((x :: rest).erase (selectMin (M current) x rest))
          (selectMin (M current) x rest) herase_len herase_sort
      have hloop : nnLoop M (fuel + 1) current (x :: rest) =
          selectMin (M current) x rest ::
            nnLoop M fuel (selectMin (M current) x rest)
              ((x :: rest).erase (selectMin (M current) x rest)) := by
        simp only [nnLoop]
      rw [hloop]
      refine ⟨Greedy.step hstep hg, selectMin (M current) x rest :: σ, by rw [hσ]; rfl, ?_⟩
      exact List.cons_perm_iff_perm_erase.2 ⟨hnxt, hperm⟩

/-- C6: for `n > 8`, the optimizer takes the nearest-neighbour branch and
returns `[0, σ..., 0]` where `σ` is a permutation of the delivery stops
`1..n-1` (each visited exactly once, the depot revisited exactly once at the
end, never inside `σ`), each step of `σ` choosing an unvisited stop of
minimum matrix distance from the current position with ties broken by lowest
stop index; the reported distance is the tour's edge sum. -/
theorem C6_nearest_neighbor (M : ℕ → ℕ → Cost) (n : ℕ) (h : 8 < n) :
    ∃ σ : List ℕ,
      findOptimalRoute M n = (some (0 :: (σ ++ [0])), pathDist M (0 :: (σ ++ [0]))) ∧
      List.Perm σ (List.range' 1 (n - 1)) ∧
      (0 : ℕ) ∉ σ ∧
      Greedy M 0 (List.range' 1 (n - 1)) (σ ++ [0]) := by
  have hsort : (List.range' 1 (n - 1)).Sorted (· ≤ ·) :=
    (List.pairwise_lt_range' 1 (n - 1)).imp le_of_lt
  have hlen : (List.range' 1 (n - 1)).length = n - 1 := by simp
  obtain ⟨hg, σ, hσ, hperm⟩ := nnLoop_greedy M (n - 1) (List.range' 1 (n - 1)) 0 hlen hsort
  have hbranch : findOptimalRoute M n = (some (nnRoute M n), pathDist M (nnRoute M n)) := by
    rw [findOptimalRoute, if_neg (by omega)]
  refine ⟨σ, ?_, hperm, ?_, hσ ▸ hg⟩
  · rw [hbranch, nnRoute, hσ]
  · intro h0
    have h1 : (0 : ℕ) ∈ List.range' 1 (n - 1) := hperm.mem_iff.1 h0
    have h2 := (List.mem_range'_1.1 h1).1
    omega

/-- Witness for C6 at `n = 9` with a concrete matrix. -/
theorem C6_witness :
    ∃ σ : List ℕ,
      findOptimalRoute (fun i j => (((i + j : ℕ) : ℚ) : Cost)) 9 =
        (some (0 :: (σ ++ [0])),
          pathDist (fun i j => (((i + j : ℕ) : ℚ) : Cost)) (0 :: (σ ++ [0]))) ∧
      List.Perm σ (List.range' 1 (9 - 1)) ∧
      (0 : ℕ) ∉ σ ∧
      Greedy (fun i j => (((i + j : ℕ) : ℚ) : Cost)) 0 (List.range' 1 (9 - 1)) (σ ++ [0]) :=
  C6_nearest_neighbor (fun i j => (((i + j : ℕ) : ℚ) : Cost)) 9 (by norm_num)
